import Mathlib

set_option maxHeartbeats 1000000

/-!
Shallow embedding of the kube-plex transcode launcher (`main.go`) and proofs
about its argument rewriting, environment translation, pod-spec generation,
lifecycle watching and cleanup logic.

Effectful code is modelled by explicit event and result parameters:
`waitForPodCompletion` consumes a list of poll events (context cancellation or
the result of one status `Get`), `main`'s tail is a function from the select
winner, the log-fetch result and the delete result to the list of observable
effects.  Go panics and `log.Fatalf` are modelled by `Option`/trace truncation.
-/

namespace KubePlex

/-- Go constant `constDefaultLimitCPU = "100m"` from main.go. -/
def constDefaultLimitCPU : String := "100m"

/-- The first switch case of `rewriteArgs`: flags whose following value has its
loopback authority rewritten. -/
def callbackFlags : List String := ["-progressurl", "-manifest_name", "-segment_list"]

/-- The second switch case of `rewriteArgs`: flags whose following value is
forced to "debug". -/
def verbosityFlags : List String := ["-loglevel", "-loglevel_plex"]

/-- All argument names recognized by the `rewriteArgs` switch. -/
def recognizedFlags : List String := callbackFlags ++ verbosityFlags

/-- The loopback authority literal that `rewriteArgs` replaces. -/
def plexLoopback : String := "http://127.0.0.1:32400"

/-- `matchHead old s` is true when `old` is an initial segment of `s`. -/
def matchHead : List Char → List Char → Bool
  | [], _ => true
  | _ :: _, [] => false
  | a :: as, b :: bs => a == b && matchHead as bs

/-- Character-level model of Go `strings.Replace(s, old, new, 1)`: replace the
first occurrence of `old` (left to right), leave everything else alone. -/
def replaceOnceCh (old new : List Char) : List Char → List Char
  | [] => if old.isEmpty then new else []
  | c :: cs =>
      if matchHead old (c :: cs) then new ++ (c :: cs).drop old.length
      else c :: replaceOnceCh old new cs

/-- Model of Go `strings.Replace(s, old, new, 1)` on strings. -/
def goReplaceOnce (s old new : String) : String :=
  String.mk (replaceOnceCh old.data new.data s.data)

/-- `hasSub s old` is true when `old` occurs as a contiguous substring of `s`. -/
def hasSub : List Char → List Char → Bool
  | [], old => old.isEmpty
  | c :: cs, old => matchHead old (c :: cs) || hasSub cs old

/-- Model of the body of `rewriteArgs` (main.go lines 133-142).  The Go loop
mutates the slice in place: iteration `i` reads the current value of `in[i]`
(which may have been written by iteration `i-1`) and on a flag match writes
`in[i+1]`; accessing `in[i+1]` when `i` is the last index panics (modelled by
`none`).  The fuel argument equals the length of the list being processed, so
the `(0, _ :: _)` case is unreachable from `rewriteArgs`. -/
def rewriteFuel (addr : String) : Nat → List String → Option (List String)
  | _, [] => some []
  | 0, _ :: _ => none
  | fuel + 1, v :: rest =>
      if v ∈ callbackFlags then
        match rest with
        | [] => none
        | w :: rest1 =>
            (rewriteFuel addr fuel (goReplaceOnce w plexLoopback addr :: rest1)).map
              (fun out => v :: out)
      else if v ∈ verbosityFlags then
        match rest with
        | [] => none
        | _ :: rest1 =>
            (rewriteFuel addr fuel ("debug" :: rest1)).map (fun out => v :: out)
      else
        (rewriteFuel addr fuel rest).map (fun out => v :: out)

/-- Model of `rewriteArgs` (main.go lines 133-142), parameterized by the
`pmsInternalAddress` configuration value.  `none` models an
index-out-of-range panic. -/
def rewriteArgs (addr : String) (l : List String) : Option (List String) :=
  rewriteFuel addr l.length l

/-- Model of `rewriteEnv` (main.go lines 129-131): an explicit pass-through. -/
def rewriteEnv (env : List String) : List String := env

/-- Model of `corev1.EnvVar` restricted to the fields main.go sets. -/
structure EnvVar where
  name : String
  value : String
deriving DecidableEq, Repr

/-- Character-level model of Go `strings.SplitN(s, "=", 2)`: split at the first
`'='` only; a string with no `'='` yields a single-element list. -/
def splitN2Ch : List Char → List (List Char)
  | [] => [[]]
  | c :: cs =>
      if c = '=' then [[], cs]
      else
        match splitN2Ch cs with
        | [] => [[c]]
        | x :: rest => (c :: x) :: rest

/-- Model of `strings.SplitN(v, "=", 2)` on strings. -/
def splitN2 (s : String) : List String :=
  (splitN2Ch s.data).map String.mk

/-- Model of `toCoreV1EnvVar` (main.go lines 230-240).  The Go code indexes
`splitvar[1]` unconditionally; when `SplitN` returned a single element (entry
with no `'='`) that access panics with index out of range, modelled by
`none`. -/
def toCoreV1EnvVar : List String → Option (List EnvVar)
  | [] => some []
  | v :: rest =>
      match splitN2 v with
      | [a, b] => (toCoreV1EnvVar rest).map (fun out => EnvVar.mk a b :: out)
      | _ => none

/-- Model of the closure `strToi64` in `generatePod`, i.e. Go
`strconv.ParseInt(s, 10, 64)` followed by a panic on error (`none`).
Accepts an optional sign followed by a non-empty digit string, rejecting
values outside the signed 64-bit range. -/
def strToi64 (s : String) : Option Int :=
  let digits : List Char → Option Nat := fun cs =>
    if cs.isEmpty then none
    else
      cs.foldl
        (fun acc c =>
          match acc with
          | none => none
          | some n => if c.isDigit then some (n * 10 + (c.toNat - 48)) else none)
        (some 0)
  match s.data with
  | '+' :: rest =>
      (digits rest).bind fun n =>
        if (n : Int) ≤ 9223372036854775807 then some (n : Int) else none
  | '-' :: rest =>
      (digits rest).bind fun n =>
        if (n : Int) ≤ 9223372036854775808 then some (-(n : Int)) else none
  | cs =>
      (digits cs).bind fun n =>
        if (n : Int) ≤ 9223372036854775807 then some (n : Int) else none

/-- The ambient environment-variable configuration read by main.go's `var`
block (claim names, namespace, image, internal address, CPU limit). -/
structure Config where
  dataPVC : String
  configPVC : String
  transcodePVC : String
  kubeNamespace : String
  pmsImage : String
  pmsInternalAddress : String
  limitCPU : String
deriving DecidableEq, Repr

/-- Model of `setDefaults` (main.go lines 267-271) acting on the `limitCPU`
configuration value. -/
def setDefaults (limitCPU : String) : String :=
  if limitCPU = "" then constDefaultLimitCPU else limitCPU

/-- Volume mount entry of the generated container. -/
structure VolumeMount where
  name : String
  mountPath : String
  readOnly : Bool
deriving DecidableEq, Repr

/-- Container entry of the generated pod (fields main.go sets). -/
structure Container where
  name : String
  command : List String
  image : String
  env : List EnvVar
  workingDir : String
  limitCPUQuantity : String
  volumeMounts : List VolumeMount
deriving DecidableEq, Repr

/-- Pod volume bound to a persistent volume claim. -/
structure Volume where
  name : String
  claimName : String
deriving DecidableEq, Repr

/-- The pod object built by `generatePod` (fields main.go sets). -/
structure Pod where
  generateName : String
  nodeArch : String
  restartPolicy : String
  runAsUser : Int
  runAsGroup : Int
  containers : List Container
  volumes : List Volume
deriving DecidableEq, Repr

/-- Model of `generatePod` (main.go lines 144-228).  `none` models a panic in
`strToi64` (malformed uid/gid) or in `toCoreV1EnvVar` (malformed environment
entry).  The CPU limit quantity is kept as the string handed to
`resource.MustParse`. -/
def generatePod (cfg : Config) (cwd uid gid : String) (env : List String)
    (args : List String) : Option Pod := do
  let envVars ← toCoreV1EnvVar env
  let u ← strToi64 uid
  let g ← strToi64 gid
  some
    { generateName := "pms-elastic-transcoder-"
      nodeArch := "amd64"
      restartPolicy := "Never"
      runAsUser := u
      runAsGroup := g
      containers :=
        [{ name := "plex"
           command := args
           image := cfg.pmsImage
           env := envVars
           workingDir := cwd
           limitCPUQuantity := cfg.limitCPU
           volumeMounts :=
             [⟨"data", "/data", false⟩,
              ⟨"config", "/config", true⟩,
              ⟨"transcode", "/transcode", false⟩,
              ⟨"transcode", "/tmp", false⟩] }]
      volumes :=
        [⟨"data", cfg.dataPVC⟩,
         ⟨"config", cfg.configPVC⟩,
         ⟨"transcode", cfg.transcodePVC⟩] }

/-- Pod phases distinguished by the `waitForPodCompletion` switch. -/
inductive Phase
  | pending
  | running
  | unknown
  | failed
  | succeeded
deriving DecidableEq, Repr

/-- Result of one status `Get` call: an API error or the fetched pod's phase. -/
inductive GetResult
  | error (e : String)
  | ok (p : Phase)
deriving DecidableEq, Repr

/-- One observable event of `waitForPodCompletion`'s select loop: either the
context is done, or the 5-second tick fired and the status `Get` returned an
error or a pod with the given phase. -/
inductive PollEvent
  | ctxDone
  | tick (r : GetResult)
deriving DecidableEq, Repr

/-- The distinct non-nil error values `waitForPodCompletion` can return. -/
inductive WaitErr
  | ctxCancelled
  | getErr (e : String)
  | podFailed (name : String)
deriving DecidableEq, Repr

/-- Rendering of `WaitErr` as the Go error strings built in main.go. -/
def waitErrString : WaitErr → String
  | .ctxCancelled => "context cancelled"
  | .getErr e => e
  | .podFailed n => "pod \"" ++ n ++ "\" failed"

/-- The warning printed by `waitForPodCompletion` for phase Unknown. -/
def warnUnknown (n : String) : String :=
  "warning: pod \"" ++ n ++ "\" is in an unknown state"

/-- Model of `waitForPodCompletion` (main.go lines 242-265) over a finite
event list.  Returns the log lines printed and `some r` when the loop
returned (`r = none` models a nil error, i.e. success), or `none` when the
event list was exhausted with the loop still polling. -/
def waitForPodCompletion (n : String) :
    List PollEvent → List String × Option (Option WaitErr)
  | [] => ([], none)
  | .ctxDone :: _ => ([], some (some .ctxCancelled))
  | .tick (.error e) :: _ => ([], some (some (.getErr e)))
  | .tick (.ok .pending) :: rest => waitForPodCompletion n rest
  | .tick (.ok .running) :: rest => waitForPodCompletion n rest
  | .tick (.ok .unknown) :: rest =>
      (warnUnknown n :: (waitForPodCompletion n rest).1,
        (waitForPodCompletion n rest).2)
  | .tick (.ok .failed) :: _ => ([], some (some (.podFailed n)))
  | .tick (.ok .succeeded) :: _ => ([], some none)

/-- True for the poll events on which the loop keeps polling. -/
def nonTerminalEv : PollEvent → Bool
  | .tick (.ok .pending) => true
  | .tick (.ok .running) => true
  | .tick (.ok .unknown) => true
  | _ => false

/-- The verdict a single poll event produces in the loop body: `none` keeps
polling, `some r` returns `r` from `waitForPodCompletion`. -/
def evOutcome (n : String) : PollEvent → Option (Option WaitErr)
  | .ctxDone => some (some .ctxCancelled)
  | .tick (.error e) => some (some (.getErr e))
  | .tick (.ok .pending) => none
  | .tick (.ok .running) => none
  | .tick (.ok .unknown) => none
  | .tick (.ok .failed) => some (some (.podFailed n))
  | .tick (.ok .succeeded) => some none

/-- Result of the log-fetch sequence in main (GetLogs/Stream then ReadAll). -/
inductive FetchResult
  | streamErr (e : String)
  | readErr (e : String)
  | ok (logs : String)
deriving DecidableEq, Repr

/-- Winner of main's select: the wait channel delivered `r`, or the signal
handler's stop channel fired. -/
inductive SelectResult
  | waitDone (r : Option WaitErr)
  | stopSignal
deriving DecidableEq, Repr

/-- Observable effects of main's tail after pod creation.  `fatalExit` models
`log.Fatalf`, which terminates the process: nothing follows it in a trace. -/
inductive Effect
  | logLine (s : String)
  | fetchLogs
  | deletePod
  | fatalExit (s : String)
deriving DecidableEq, Repr

/-- The cleanup tail of main (lines 122-125): log, one Delete call, and a
fatal exit if the delete returned an error `d`. -/
def cleanupTrace (d : Option String) : List Effect :=
  Effect.logLine "cleaning up pod..." ::
    Effect.deletePod ::
      match d with
      | some e => [Effect.fatalExit ("error cleaning up pod: " ++ e)]
      | none => []

/-- Model of main.go lines 99-125: the effects emitted after the select
resolves, as a function of the select winner, the log-fetch result and the
delete result. -/
def mainAfterSelect (sel : SelectResult) (fetch : FetchResult)
    (d : Option String) : List Effect :=
  match sel with
  | .waitDone none => cleanupTrace d
  | .waitDone (some e) =>
      Effect.logLine ("error waiting for pod to complete: " ++ waitErrString e) ::
        Effect.fetchLogs ::
          (match fetch with
           | .streamErr m => [Effect.fatalExit ("Error getting pod logs: " ++ m)]
           | .readErr m => [Effect.fatalExit ("Error reading pod logs: " ++ m)]
           | .ok logs => Effect.logLine ("pod logs:\n" ++ logs) :: cleanupTrace d)
  | .stopSignal => Effect.logLine "exit requested." :: cleanupTrace d

/-- The select in main: if the stop channel wins the race the outcome is
`stopSignal`; otherwise the wait goroutine must have delivered a result.
`none` models a run in which neither happened within the observed events. -/
def mainSelect (n : String) (evs : List PollEvent) (stopWins : Bool) :
    Option SelectResult :=
  if stopWins then some .stopSignal
  else
    match (waitForPodCompletion n evs).2 with
    | some r => some (.waitDone r)
    | none => none

/-- One run of main's post-creation logic: resolve the select against the
poll events and the stop signal, then emit the tail effects. -/
def runMain (n : String) (evs : List PollEvent) (stopWins : Bool)
    (fetch : FetchResult) (d : Option String) : Option (List Effect) :=
  (mainSelect n evs stopWins).map fun sel => mainAfterSelect sel fetch d

/-- Recognizer for the delete effect. -/
def isDeleteEffect : Effect → Bool
  | .deletePod => true
  | _ => false

/-- Recognizer for the log-fetch effect. -/
def isFetchEffect : Effect → Bool
  | .fetchLogs => true
  | _ => false

/-- Number of pod Delete calls in a trace. -/
def countDelete (tr : List Effect) : Nat := (tr.filter isDeleteEffect).length

/-- Number of log-fetch (Stream) calls in a trace. -/
def countFetch (tr : List Effect) : Nat := (tr.filter isFetchEffect).length

/-! Helper lemmas about `rewriteFuel`, `replaceOnceCh` and `splitN2Ch`. -/

theorem rewriteFuel_passthrough (addr : String) :
    ∀ (l : List String) (fuel : Nat), l.length ≤ fuel →
      (∀ v ∈ l, v ∉ recognizedFlags) → rewriteFuel addr fuel l = some l := by
  intro l
  induction l with
  | nil => intro fuel _ _; cases fuel <;> rfl
  | cons v rest ih =>
    intro fuel hf h
    cases fuel with
    | zero => simp at hf
    | succ fu =>
      have hv : v ∉ recognizedFlags := h v (List.mem_cons_self _ _)
      have h1 : v ∉ callbackFlags := fun hc => hv (List.mem_append_left _ hc)
      have h2 : v ∉ verbosityFlags := fun hc => hv (List.mem_append_right _ hc)
      have hr : rest.length ≤ fu := by
        simpa [Nat.succ_le_succ_iff] using hf
      simp only [rewriteFuel, if_neg h1, if_neg h2]
      rw [ih fu hr (fun x hx => h x (List.mem_cons_of_mem _ hx))]
      rfl

theorem rewriteFuel_single (addr f w newVal : String)
    (hbr : (f ∈ callbackFlags ∧ newVal = goReplaceOnce w plexLoopback addr) ∨
           (f ∉ callbackFlags ∧ f ∈ verbosityFlags ∧ newVal = "debug"))
    (hnew : newVal ∉ recognizedFlags) :
    ∀ (pre : List String) (post : List String) (fuel : Nat),
      (pre ++ f :: w :: post).length ≤ fuel →
      (∀ v ∈ pre, v ∉ recognizedFlags) →
      (∀ v ∈ post, v ∉ recognizedFlags) →
      rewriteFuel addr fuel (pre ++ f :: w :: post) = some (pre ++ f :: newVal :: post) := by
  intro pre
  induction pre with
  | nil =>
    intro post fuel hf _ hpost
    cases fuel with
    | zero => simp at hf
    | succ fu =>
      have hlen : (newVal :: post).length ≤ fu := by
        simp only [List.nil_append, List.length_cons] at hf
        simp only [List.length_cons]
        omega
      have hflags : ∀ v ∈ newVal :: post, v ∉ recognizedFlags := by
        intro x hx
        rcases List.mem_cons.mp hx with rfl | hx
        · exact hnew
        · exact hpost x hx
      rcases hbr with ⟨hcb, rfl⟩ | ⟨hncb, hvb, rfl⟩
      · simp only [List.nil_append, rewriteFuel, if_pos hcb]
        rw [rewriteFuel_passthrough addr _ fu hlen hflags]
        rfl
      · simp only [List.nil_append, rewriteFuel, if_neg hncb, if_pos hvb]
        rw [rewriteFuel_passthrough addr _ fu hlen hflags]
        rfl
  | cons p pre1 ih =>
    intro post fuel hf hpre hpost
    cases fuel with
    | zero => simp at hf
    | succ fu =>
      have hp : p ∉ recognizedFlags := hpre p (List.mem_cons_self _ _)
      have h1 : p ∉ callbackFlags := fun hc => hp (List.mem_append_left _ hc)
      have h2 : p ∉ verbosityFlags := fun hc => hp (List.mem_append_right _ hc)
      have hlen : (pre1 ++ f :: w :: post).length ≤ fu := by
        simp only [List.cons_append, List.length_cons] at hf
        omega
      simp only [List.cons_append, rewriteFuel, if_neg h1, if_neg h2, List.append_eq]
      rw [ih post fu hlen (fun x hx => hpre x (List.mem_cons_of_mem _ hx)) hpost]
      rfl

theorem rewriteFuel_flagLast (addr f : String) (hf : f ∈ recognizedFlags) :
    ∀ (pre : List String) (fuel : Nat),
      (pre ++ [f]).length ≤ fuel →
      (∀ v ∈ pre, v ∉ recognizedFlags) →
      rewriteFuel addr fuel (pre ++ [f]) = none := by
  intro pre
  induction pre with
  | nil =>
    intro fuel hlen _
    cases fuel with
    | zero => simp at hlen
    | succ fu =>
      by_cases hc : f ∈ callbackFlags
      · simp only [List.nil_append, rewriteFuel, if_pos hc]
      · have hv : f ∈ verbosityFlags := by
          rcases List.mem_append.mp hf with h | h
          · exact absurd h hc
          · exact h
        simp only [List.nil_append, rewriteFuel, if_neg hc, if_pos hv]
  | cons p pre1 ih =>
    intro fuel hlen hpre
    cases fuel with
    | zero => simp at hlen
    | succ fu =>
      have hp : p ∉ recognizedFlags := hpre p (List.mem_cons_self _ _)
      have h1 : p ∉ callbackFlags := fun hc => hp (List.mem_append_left _ hc)
      have h2 : p ∉ verbosityFlags := fun hc => hp (List.mem_append_right _ hc)
      have hlen1 : (pre1 ++ [f]).length ≤ fu := by
        simp only [List.cons_append, List.length_cons] at hlen
        omega
      simp only [List.cons_append, rewriteFuel, if_neg h1, if_neg h2, List.append_eq]
      rw [ih fu hlen1 (fun x hx => hpre x (List.mem_cons_of_mem _ hx))]
      rfl

theorem matchHead_eq_append :
    ∀ (old s : List Char), matchHead old s = true → s = old ++ s.drop old.length := by
  intro old
  induction old with
  | nil => intro s _; simp
  | cons a as ih =>
    intro s h
    cases s with
    | nil => simp [matchHead] at h
    | cons b bs =>
      simp only [matchHead, Bool.and_eq_true, beq_iff_eq] at h
      obtain ⟨rfl, h2⟩ := h
      simp only [List.length_cons, List.cons_append, List.drop_succ_cons]
      exact congrArg (a :: ·) (ih bs h2)

theorem replaceOnce_decomp (old new : List Char) (hold : old ≠ []) :
    ∀ s : List Char, hasSub s old = true →
      ∃ p q, s = p ++ old ++ q ∧ replaceOnceCh old new s = p ++ new ++ q := by
  intro s
  induction s with
  | nil =>
    intro h
    simp only [hasSub, List.isEmpty_iff] at h
    exact absurd h hold
  | cons c cs ih =>
    intro h
    by_cases hm : matchHead old (c :: cs) = true
    · refine ⟨[], (c :: cs).drop old.length, ?_, ?_⟩
      · simpa using matchHead_eq_append old (c :: cs) hm
      · simp [replaceOnceCh, hm]
    · have h1 : hasSub cs old = true := by
        simp only [hasSub, Bool.or_eq_true] at h
        rcases h with h | h
        · exact absurd h hm
        · exact h
      obtain ⟨p, q, hs, hr⟩ := ih h1
      refine ⟨c :: p, q, by simp [hs], ?_⟩
      simp [replaceOnceCh, hm, hr]

/-- Claim C8 counterexample input: `["-loglevel", "-loglevel"]` ends in a
recognized flag, yet `rewriteArgs` does not panic: the first iteration
overwrites the final flag with "debug" before the pass reaches it. -/
theorem c8_counterexample :
    rewriteArgs "http://pms:32400" ["-loglevel", "-loglevel"]
        = some ["-loglevel", "debug"] ∧
      (["-loglevel", "-loglevel"] : List String).getLast? = some "-loglevel" ∧
      "-loglevel" ∈ recognizedFlags ∧
      (some ["-loglevel", "debug"] : Option (List String)) ≠ none := by
  refine ⟨rfl, rfl, by decide, by decide⟩

/-- Claim C8 (amended): if the last element of the argument vector is a
recognized flag and no earlier element is a recognized flag (so no rewrite
rule can overwrite the final flag before the left-to-right pass reaches it),
then `rewriteArgs` hits the out-of-range access `in[i+1]` and panics
(modelled by `none`) instead of silently skipping the rule. -/
theorem c8_flag_last_panics (addr f : String) (pre : List String)
    (hf : f ∈ recognizedFlags)
    (hpre : ∀ v ∈ pre, v ∉ recognizedFlags) :
    rewriteArgs addr (pre ++ [f]) = none :=
  rewriteFuel_flagLast addr f hf pre _ le_rfl hpre

/-- Claim C8 witness: a concrete vector ending in a recognized flag panics. -/
theorem c8_witness : rewriteArgs "http://pms:32400" (["ffmpeg"] ++ ["-progressurl"]) = none :=
  c8_flag_last_panics "http://pms:32400" "-progressurl" ["ffmpeg"] (by decide) (by decide)

/-- Claim C6 counterexample: the vector contains `-progressurl` followed by a
value containing the loopback authority, but another recognized flag is also
present, so the rewritten vector does not leave all other arguments
unchanged: the value "info" after `-loglevel` becomes "debug". -/
theorem c6_counterexample :
    rewriteArgs "http://pms:32400"
        ["-progressurl", "http://127.0.0.1:32400", "-loglevel", "info"]
      = some ["-progressurl", "http://pms:32400", "-loglevel", "debug"] ∧
    ("info" : String) ≠ "debug" := by
  refine ⟨rfl, by decide⟩

/-- Claim C6 (amended): if the callback-URL flag occurrence is the only
recognized-flag occurrence in the vector, it is followed by a value
containing the loopback authority, and the rewritten value is not itself a
recognized flag token, then `rewriteArgs` succeeds, replaces exactly one
occurrence of the loopback authority (the first) inside that value with the
internal address, and leaves all other characters of that value, all other
arguments and the vector's length unchanged. -/
theorem c6_url_rewrite (addr f w : String) (pre post : List String)
    (hf : f ∈ callbackFlags)
    (hsub : hasSub w.data plexLoopback.data = true)
    (hpre : ∀ v ∈ pre, v ∉ recognizedFlags)
    (hpost : ∀ v ∈ post, v ∉ recognizedFlags)
    (hnew : goReplaceOnce w plexLoopback addr ∉ recognizedFlags) :
    ∃ out, rewriteArgs addr (pre ++ f :: w :: post) = some out ∧
      out = pre ++ f :: goReplaceOnce w plexLoopback addr :: post ∧
      out.length = (pre ++ f :: w :: post).length ∧
      ∃ p q, w.data = p ++ plexLoopback.data ++ q ∧
        (goReplaceOnce w plexLoopback addr).data = p ++ addr.data ++ q := by
  refine ⟨pre ++ f :: goReplaceOnce w plexLoopback addr :: post, ?_, rfl, by simp, ?_⟩
  · exact rewriteFuel_single addr f w _ (Or.inl ⟨hf, rfl⟩) hnew pre post _ le_rfl hpre hpost
  · exact replaceOnce_decomp plexLoopback.data addr.data (by decide) w.data hsub

/-- Claim C6 witness: concrete rewrite of a progress URL. -/
theorem c6_witness :
    ∃ out, rewriteArgs "http://pms:32400"
        (([] : List String) ++ "-progressurl" :: "http://127.0.0.1:32400/video" :: ["arg"])
        = some out ∧
      out = ([] : List String) ++ "-progressurl" ::
          goReplaceOnce "http://127.0.0.1:32400/video" plexLoopback "http://pms:32400" :: ["arg"] ∧
      out.length
        = (([] : List String) ++ "-progressurl" :: "http://127.0.0.1:32400/video" :: ["arg"]).length ∧
      ∃ p q, ("http://127.0.0.1:32400/video" : String).data = p ++ plexLoopback.data ++ q ∧
        (goReplaceOnce "http://127.0.0.1:32400/video" plexLoopback "http://pms:32400").data
          = p ++ ("http://pms:32400" : String).data ++ q :=
  c6_url_rewrite "http://pms:32400" "-progressurl" "http://127.0.0.1:32400/video" [] ["arg"]
    (by decide) (by decide) (by decide) (by decide) (by decide)

/-- Claim C7 counterexample: the vector `["-loglevel", "-loglevel", "x"]`
contains a recognized verbosity flag at index 1, but after `rewriteArgs` the
value following that position is still "x", because the first iteration
overwrote the flag at index 1 with "debug" before the pass reached it. -/
theorem c7_counterexample :
    rewriteArgs "http://pms:32400" ["-loglevel", "-loglevel", "x"]
      = some ["-loglevel", "debug", "x"] ∧
    (["-loglevel", "-loglevel", "x"] : List String)[1]? = some "-loglevel" ∧
    "-loglevel" ∈ verbosityFlags ∧
    (["-loglevel", "debug", "x"] : List String)[2]? = some "x" ∧
    ("x" : String) ≠ "debug" := by
  refine ⟨rfl, rfl, by decide, rfl, by decide⟩

/-- Claim C7 (amended): if the verbosity-flag occurrence is the only
recognized-flag occurrence in the vector and is followed by a value, then
after `rewriteArgs` the value immediately following the flag is the token
"debug" regardless of its prior value, with all other arguments and the
length unchanged. -/
theorem c7_loglevel_rewrite (addr f w : String) (pre post : List String)
    (hf : f ∈ verbosityFlags)
    (hpre : ∀ v ∈ pre, v ∉ recognizedFlags)
    (hpost : ∀ v ∈ post, v ∉ recognizedFlags) :
    ∃ out, rewriteArgs addr (pre ++ f :: w :: post) = some out ∧
      out = pre ++ f :: "debug" :: post ∧
      out.length = (pre ++ f :: w :: post).length := by
  have hnc : f ∉ callbackFlags := by
    have h2 : f = "-loglevel" ∨ f = "-loglevel_plex" := by
      simpa [verbosityFlags] using hf
    rcases h2 with rfl | rfl <;> decide
  have hnew : ("debug" : String) ∉ recognizedFlags := by decide
  exact ⟨pre ++ f :: "debug" :: post,
    rewriteFuel_single addr f w _ (Or.inr ⟨hnc, hf, rfl⟩) hnew pre post _ le_rfl hpre hpost,
    rfl, by simp⟩

/-- Claim C7 witness: concrete forcing of `-loglevel` to "debug". -/
theorem c7_witness :
    ∃ out, rewriteArgs "http://pms:32400" (["ffmpeg"] ++ "-loglevel" :: "info" :: ["in.mkv"])
        = some out ∧
      out = ["ffmpeg"] ++ "-loglevel" :: "debug" :: ["in.mkv"] ∧
      out.length = (["ffmpeg"] ++ "-loglevel" :: "info" :: ["in.mkv"]).length :=
  c7_loglevel_rewrite "http://pms:32400" "-loglevel" "info" ["ffmpeg"] ["in.mkv"]
    (by decide) (by decide) (by decide)

theorem strMk_append (x y : List Char) : String.mk x ++ String.mk y = String.mk (x ++ y) := rfl

theorem str_data_append (x y : String) : (x ++ y).data = x.data ++ y.data := by
  cases x; cases y; rfl

theorem splitN2Ch_spec :
    ∀ s : List Char, '=' ∈ s →
      ∃ a b, splitN2Ch s = [a, b] ∧ a ++ '=' :: b = s ∧ '=' ∉ a := by
  intro s
  induction s with
  | nil => intro h; simp at h
  | cons c cs ih =>
    intro h
    by_cases hc : c = '='
    · subst hc
      exact ⟨[], cs, by simp [splitN2Ch], rfl, by simp⟩
    · have h1 : '=' ∈ cs := by
        rcases List.mem_cons.mp h with h | h
        · exact absurd h.symm hc
        · exact h
      obtain ⟨a, b, hsp, heq, hna⟩ := ih h1
      refine ⟨c :: a, b, ?_, by simp [heq], ?_⟩
      · simp only [splitN2Ch, if_neg hc, hsp]
      · intro hmem
        rcases List.mem_cons.mp hmem with h | h
        · exact hc h.symm
        · exact hna h

theorem splitN2Ch_append :
    ∀ a : List Char, '=' ∉ a → ∀ b : List Char, splitN2Ch (a ++ '=' :: b) = [a, b] := by
  intro a
  induction a with
  | nil => intro _ b; simp [splitN2Ch]
  | cons c cs ih =>
    intro ha b
    have hc : ¬(c = '=') := fun h => ha (h ▸ List.mem_cons_self c cs)
    have ih1 := ih (fun h => ha (List.mem_cons_of_mem _ h)) b
    simp only [List.cons_append, splitN2Ch, if_neg hc, List.append_eq, ih1]

/-- Claim C5: the translator does not reject a `'='`-free entry explicitly; it
reaches the out-of-range index access.  `strings.SplitN` on such an entry
yields a single-element slice, so `splitvar[1]` panics (modelled by `none`). -/
theorem c5_malformed_env_panics :
    splitN2 "MALFORMED" = ["MALFORMED"] ∧ (splitN2 "MALFORMED").length = 1 ∧
      toCoreV1EnvVar ["MALFORMED"] = none :=
  ⟨rfl, rfl, rfl⟩

/-- Claim C10: on well-formed entries (each containing at least one `'='`),
`toCoreV1EnvVar` yields one EnvVar per entry in order (duplicates preserved),
the i-th output splitting the i-th input at its first `'='`; since the split
is at the first `'='` only, any further `'='` characters stay in the value
verbatim, as the final conjunct shows on entries of the shape
`name ++ "=" ++ value`. -/
theorem c10_env_translation (l : List String)
    (h : ∀ v ∈ l, '=' ∈ v.data) :
    ∃ out, toCoreV1EnvVar l = some out ∧ out.length = l.length ∧
      (∀ (i : Nat) (v : String), l[i]? = some v →
        ∃ e, out[i]? = some e ∧
          e.name ++ "=" ++ e.value = v ∧ '=' ∉ e.name.data) ∧
      (∀ nm val : String, '=' ∉ nm.data → splitN2 (nm ++ "=" ++ val) = [nm, val]) := by
  have hgen : ∀ nm val : String, '=' ∉ nm.data → splitN2 (nm ++ "=" ++ val) = [nm, val] := by
    intro nm val hna
    have hdata : (nm ++ "=" ++ val).data = nm.data ++ '=' :: val.data := by
      rw [str_data_append, str_data_append]
      simp
    unfold splitN2
    rw [hdata, splitN2Ch_append nm.data hna val.data]
    rfl
  induction l with
  | nil => exact ⟨[], rfl, rfl, by intro i v hv; simp at hv, hgen⟩
  | cons v rest ih =>
    have hv : '=' ∈ v.data := h v (List.mem_cons_self _ _)
    obtain ⟨a, b, hsp, heq, hna⟩ := splitN2Ch_spec v.data hv
    obtain ⟨out, hout, hlen, hidx, -⟩ := ih (fun x hx => h x (List.mem_cons_of_mem _ hx))
    have hsp2 : splitN2 v = [String.mk a, String.mk b] := by
      unfold splitN2
      rw [hsp]
      rfl
    refine ⟨EnvVar.mk (String.mk a) (String.mk b) :: out, ?_, by simp [hlen], ?_, hgen⟩
    · simp only [toCoreV1EnvVar, hsp2, hout]
      rfl
    · intro i w hw
      cases i with
      | zero =>
        simp only [List.getElem?_cons_zero, Option.some.injEq] at hw
        subst hw
        refine ⟨EnvVar.mk (String.mk a) (String.mk b), by simp, ?_, hna⟩
        show String.mk a ++ "=" ++ String.mk b = v
        rw [strMk_append, strMk_append]
        have : (a ++ ('=' :: [])) ++ b = a ++ '=' :: b := by simp
        rw [this, heq]
      | succ j =>
        simp only [List.getElem?_cons_succ] at hw ⊢
        exact hidx j w hw

/-- Claim C10 witness: two concrete entries, the second with extra `'='`
characters carried verbatim into the value. -/
theorem c10_witness :
    ∃ out, toCoreV1EnvVar ["HOME=/root", "FLAG=a=b=c"] = some out ∧
      out.length = (["HOME=/root", "FLAG=a=b=c"] : List String).length ∧
      (∀ (i : Nat) (v : String), (["HOME=/root", "FLAG=a=b=c"] : List String)[i]? = some v →
        ∃ e, out[i]? = some e ∧
          e.name ++ "=" ++ e.value = v ∧ '=' ∉ e.name.data) ∧
      (∀ nm val : String, '=' ∉ nm.data → splitN2 (nm ++ "=" ++ val) = [nm, val]) :=
  c10_env_translation ["HOME=/root", "FLAG=a=b=c"] (by decide)

/-- Claim C9: main applies `setDefaults` before `generatePod`; with an unset
(empty) CPU limit the built container's CPU limit quantity is the default
"100m", and with an explicit limit it is that value verbatim. -/
theorem c9_cpu_limit (cfg : Config) (cwd uid gid : String) (env args : List String) (pod : Pod)
    (h : generatePod { cfg with limitCPU := setDefaults cfg.limitCPU } cwd uid gid env args
        = some pod) :
    ∃ c, pod.containers = [c] ∧
      c.limitCPUQuantity = (if cfg.limitCPU = "" then constDefaultLimitCPU else cfg.limitCPU) := by
  unfold generatePod at h
  rcases henv : toCoreV1EnvVar env with - | envVars
  · rw [henv] at h
    simp at h
  · rw [henv] at h
    rcases hu : strToi64 uid with - | u
    · rw [hu] at h
      simp at h
    · rw [hu] at h
      rcases hg : strToi64 gid with - | g
      · rw [hg] at h
        simp at h
      · rw [hg] at h
        simp only [Option.bind_some, Option.some.injEq, bind, Option.bind] at h
        subst h
        exact ⟨_, rfl, rfl⟩

/-- Claim C9 witness: an unset limit becomes "100m" and an explicit limit
"250m" is used verbatim. -/
theorem c9_witness :
    (∃ c, (Pod.mk "pms-elastic-transcoder-" "amd64" "Never" 0 0
        [Container.mk "plex" [] "img" [] "/"
          (constDefaultLimitCPU)
          [VolumeMount.mk "data" "/data" false, VolumeMount.mk "config" "/config" true,
           VolumeMount.mk "transcode" "/transcode" false, VolumeMount.mk "transcode" "/tmp" false]]
        [Volume.mk "data" "d", Volume.mk "config" "c", Volume.mk "transcode" "t"]).containers
          = [c] ∧
      c.limitCPUQuantity
        = (if (Config.mk "d" "c" "t" "ns" "img" "addr" "").limitCPU = ""
            then constDefaultLimitCPU else (Config.mk "d" "c" "t" "ns" "img" "addr" "").limitCPU)) ∧
    (∃ c, (Pod.mk "pms-elastic-transcoder-" "amd64" "Never" 0 0
        [Container.mk "plex" [] "img" [] "/"
          "250m"
          [VolumeMount.mk "data" "/data" false, VolumeMount.mk "config" "/config" true,
           VolumeMount.mk "transcode" "/transcode" false, VolumeMount.mk "transcode" "/tmp" false]]
        [Volume.mk "data" "d", Volume.mk "config" "c", Volume.mk "transcode" "t"]).containers
          = [c] ∧
      c.limitCPUQuantity
        = (if (Config.mk "d" "c" "t" "ns" "img" "addr" "250m").limitCPU = ""
            then constDefaultLimitCPU else (Config.mk "d" "c" "t" "ns" "img" "addr" "250m").limitCPU)) :=
  ⟨c9_cpu_limit (Config.mk "d" "c" "t" "ns" "img" "addr" "") "/" "0" "0" [] [] _ rfl,
   c9_cpu_limit (Config.mk "d" "c" "t" "ns" "img" "addr" "250m") "/" "0" "0" [] [] _ rfl⟩

/-! Helper lemmas about the watcher loop. -/

theorem nonTerminal_iff_none (n : String) (x : PollEvent) :
    nonTerminalEv x = true ↔ evOutcome n x = none := by
  cases x with
  | ctxDone => simp [nonTerminalEv, evOutcome]
  | tick r =>
    cases r with
    | error e => simp [nonTerminalEv, evOutcome]
    | ok p => cases p <;> simp [nonTerminalEv, evOutcome]

theorem wait_cons_terminal (n : String) (x : PollEvent) (rest : List PollEvent)
    (s : Option WaitErr) (hx : evOutcome n x = some s) :
    (waitForPodCompletion n (x :: rest)).2 = some s := by
  cases x with
  | ctxDone => simp_all [evOutcome, waitForPodCompletion]
  | tick r =>
    cases r with
    | error e => simp_all [evOutcome, waitForPodCompletion]
    | ok p => cases p <;> simp_all [evOutcome, waitForPodCompletion]

theorem wait_cons_continue (n : String) (x : PollEvent) (rest : List PollEvent)
    (hx : evOutcome n x = none) :
    (waitForPodCompletion n (x :: rest)).2 = (waitForPodCompletion n rest).2 := by
  cases x with
  | ctxDone => simp_all [evOutcome]
  | tick r =>
    cases r with
    | error e => simp_all [evOutcome]
    | ok p => cases p <;> simp_all [evOutcome, waitForPodCompletion]

theorem wait_result_iff (n : String) :
    ∀ (evs : List PollEvent) (r : Option WaitErr),
      (waitForPodCompletion n evs).2 = some r ↔
        ∃ pre e post, evs = pre ++ e :: post ∧
          (∀ x ∈ pre, nonTerminalEv x = true) ∧ evOutcome n e = some r := by
  intro evs
  induction evs with
  | nil =>
    intro r
    constructor
    · intro h
      simp [waitForPodCompletion] at h
    · rintro ⟨pre, e, post, heq, -, -⟩
      exact absurd heq.symm (List.append_ne_nil_of_right_ne_nil _ (List.cons_ne_nil _ _))
  | cons x rest ih =>
    intro r
    rcases hx : evOutcome n x with - | s
    · rw [wait_cons_continue n x rest hx, ih r]
      constructor
      · rintro ⟨pre, e, post, heq, hall, hout⟩
        refine ⟨x :: pre, e, post, by simp [heq], ?_, hout⟩
        intro y hy
        rcases List.mem_cons.mp hy with rfl | hy
        · exact (nonTerminal_iff_none n y).mpr hx
        · exact hall y hy
      · rintro ⟨pre, e, post, heq, hall, hout⟩
        cases pre with
        | nil =>
          simp only [List.nil_append, List.cons.injEq] at heq
          obtain ⟨rfl, rfl⟩ := heq
          rw [hx] at hout
          cases hout
        | cons y pre1 =>
          simp only [List.cons_append, List.cons.injEq] at heq
          obtain ⟨rfl, heq1⟩ := heq
          exact ⟨pre1, e, post, heq1, fun z hz => hall z (List.mem_cons_of_mem _ hz), hout⟩
    · rw [wait_cons_terminal n x rest s hx]
      constructor
      · intro h
        injection h with h
        exact ⟨[], x, rest, rfl, by simp, by rw [hx, h]⟩
      · rintro ⟨pre, e, post, heq, hall, hout⟩
        cases pre with
        | nil =>
          simp only [List.nil_append, List.cons.injEq] at heq
          obtain ⟨rfl, rfl⟩ := heq
          rw [hx] at hout
          exact hout
        | cons y pre1 =>
          simp only [List.cons_append, List.cons.injEq] at heq
          obtain ⟨rfl, heq1⟩ := heq
          have hnt := hall x (List.mem_cons_self _ _)
          rw [nonTerminal_iff_none n x, hx] at hnt
          cases hnt

theorem evOutcome_eq_success (n : String) (e : PollEvent) :
    evOutcome n e = some none ↔ e = PollEvent.tick (GetResult.ok Phase.succeeded) := by
  cases e with
  | ctxDone => simp [evOutcome]
  | tick r =>
    cases r with
    | error s => simp [evOutcome]
    | ok p => cases p <;> simp [evOutcome]

theorem evOutcome_eq_failed (n : String) (e : PollEvent) :
    evOutcome n e = some (some (WaitErr.podFailed n)) ↔
      e = PollEvent.tick (GetResult.ok Phase.failed) := by
  cases e with
  | ctxDone => simp [evOutcome]
  | tick r =>
    cases r with
    | error s => simp [evOutcome]
    | ok p => cases p <;> simp [evOutcome]

/-- Claim C2: the wait returns nil (success) exactly when the first
verdict-producing poll event is a pod in phase Succeeded, returns the
job-failure error exactly when it is a pod in phase Failed; polls observing
Pending, Running or Unknown continue the loop without terminating, with
Unknown contributing exactly one warning log line and Pending/Running
none. -/
theorem c2_wait_outcomes (n : String) (evs : List PollEvent) :
    ((waitForPodCompletion n evs).2 = some none ↔
      ∃ pre post, evs = pre ++ PollEvent.tick (GetResult.ok Phase.succeeded) :: post ∧
        ∀ x ∈ pre, nonTerminalEv x = true)
    ∧
    ((waitForPodCompletion n evs).2 = some (some (WaitErr.podFailed n)) ↔
      ∃ pre post, evs = pre ++ PollEvent.tick (GetResult.ok Phase.failed) :: post ∧
        ∀ x ∈ pre, nonTerminalEv x = true)
    ∧
    (∀ x, nonTerminalEv x = true →
      (waitForPodCompletion n (x :: evs)).2 = (waitForPodCompletion n evs).2)
    ∧
    ((waitForPodCompletion n (PollEvent.tick (GetResult.ok Phase.unknown) :: evs)).1
        = warnUnknown n :: (waitForPodCompletion n evs).1
      ∧ (waitForPodCompletion n (PollEvent.tick (GetResult.ok Phase.pending) :: evs)).1
        = (waitForPodCompletion n evs).1
      ∧ (waitForPodCompletion n (PollEvent.tick (GetResult.ok Phase.running) :: evs)).1
        = (waitForPodCompletion n evs).1) := by
  refine ⟨?_, ?_, ?_, rfl, rfl, rfl⟩
  · rw [wait_result_iff]
    constructor
    · rintro ⟨pre, e, post, heq, hall, hout⟩
      rw [evOutcome_eq_success n e] at hout
      subst hout
      exact ⟨pre, post, heq, hall⟩
    · rintro ⟨pre, post, heq, hall⟩
      exact ⟨pre, _, post, heq, hall, by simp [evOutcome]⟩
  · rw [wait_result_iff]
    constructor
    · rintro ⟨pre, e, post, heq, hall, hout⟩
      rw [evOutcome_eq_failed n e] at hout
      subst hout
      exact ⟨pre, post, heq, hall⟩
    · rintro ⟨pre, post, heq, hall⟩
      exact ⟨pre, _, post, heq, hall, by simp [evOutcome]⟩
  · intro x hx
    exact wait_cons_continue n x evs ((nonTerminal_iff_none n x).mp hx)

/-- Claim C2 witness: a Pending poll continues and a Succeeded poll then
yields the nil (success) outcome. -/
theorem c2_witness :
    (waitForPodCompletion "p" [PollEvent.tick (GetResult.ok Phase.pending),
        PollEvent.tick (GetResult.ok Phase.succeeded)]).2 = some none := by
  have h := c2_wait_outcomes "p" [PollEvent.tick (GetResult.ok Phase.succeeded)]
  rw [h.2.2.1 (PollEvent.tick (GetResult.ok Phase.pending)) (by decide)]
  exact h.1.mpr ⟨[], [], rfl, by simp⟩

/-- Claim C3 counterexample: a polling error is not retried: with events
[Get error, Succeeded] the wait terminates at the error and never reaches
the later Succeeded poll. -/
theorem c3_counterexample :
    (waitForPodCompletion "p" [PollEvent.tick (GetResult.error "connection timeout"),
        PollEvent.tick (GetResult.ok Phase.succeeded)]).2
      = some (some (WaitErr.getErr "connection timeout"))
    ∧ (waitForPodCompletion "p" [PollEvent.tick (GetResult.error "connection timeout"),
        PollEvent.tick (GetResult.ok Phase.succeeded)]).2 ≠ some none := by
  exact ⟨rfl, by decide⟩

/-- Claim C3 (amended): when a status poll returns an error, the watcher
terminates immediately, propagating that error as a fatal wait outcome; it
does not treat the fault as transient and never polls again. -/
theorem c3_poll_error_fatal (n e : String) (rest : List PollEvent) :
    (waitForPodCompletion n (PollEvent.tick (GetResult.error e) :: rest)).2
      = some (some (WaitErr.getErr e)) := rfl

/-! Helper lemmas about main's effect trace. -/

theorem countDelete_cleanup (d : Option String) : countDelete (cleanupTrace d) = 1 := by
  cases d <;> rfl

theorem countFetch_cleanup (d : Option String) : countFetch (cleanupTrace d) = 0 := by
  cases d <;> rfl

/-- Claim C1 counterexample: a run whose wait ends in the job-failure outcome
and whose log fetch (Stream) fails exits fatally before the cleanup: the
delete call happens zero times, not exactly once. -/
theorem c1_counterexample :
    runMain "p" [PollEvent.tick (GetResult.ok Phase.failed)] false
        (FetchResult.streamErr "connection reset") none
      = some [Effect.logLine "error waiting for pod to complete: pod \"p\" failed",
              Effect.fetchLogs,
              Effect.fatalExit "Error getting pod logs: connection reset"]
    ∧ countDelete [Effect.logLine "error waiting for pod to complete: pod \"p\" failed",
              Effect.fetchLogs,
              Effect.fatalExit "Error getting pod logs: connection reset"] = 0 :=
  ⟨rfl, rfl⟩

/-- Claim C1 (amended): the pod delete is invoked at most once in every run,
and exactly once in every run in which the stop signal won the select, or
the wait ended in success, or the failure-diagnostics log fetch and read
succeeded; only a run whose wait returned a non-nil error and whose log
fetch then failed exits fatally with no delete call.  A second deletion
attempt is never made. -/
theorem c1_cleanup_once (n : String) (evs : List PollEvent) (stopWins : Bool)
    (fetch : FetchResult) (d : Option String) (tr : List Effect)
    (h : runMain n evs stopWins fetch d = some tr) :
    countDelete tr ≤ 1 ∧
      ((stopWins = true ∨ (waitForPodCompletion n evs).2 = some none ∨
          ∃ logs, fetch = FetchResult.ok logs) →
        countDelete tr = 1) := by
  unfold runMain mainSelect at h
  cases stopWins with
  | true =>
    rw [if_pos rfl] at h
    simp only [Option.map_some', Option.some.injEq] at h
    subst h
    have hc : countDelete (mainAfterSelect SelectResult.stopSignal fetch d) = 1 := by
      cases d <;> rfl
    exact ⟨Nat.le_of_eq hc, fun _ => hc⟩
  | false =>
    rw [if_neg (fun hh => Bool.noConfusion hh)] at h
    rcases hw : (waitForPodCompletion n evs).2 with - | r
    · rw [hw] at h
      simp at h
    · rw [hw] at h
      simp only [Option.map_some', Option.some.injEq] at h
      subst h
      rcases r with - | e
      · have hc : countDelete (mainAfterSelect (SelectResult.waitDone none) fetch d) = 1 := by
          cases d <;> rfl
        exact ⟨Nat.le_of_eq hc, fun _ => hc⟩
      · rcases fetch with m | m | logs
        · refine ⟨Nat.zero_le _, ?_⟩
          rintro (h1 | h2 | ⟨l, hl⟩)
          · exact Bool.noConfusion h1
          · simp at h2
          · exact FetchResult.noConfusion hl
        · refine ⟨Nat.zero_le _, ?_⟩
          rintro (h1 | h2 | ⟨l, hl⟩)
          · exact Bool.noConfusion h1
          · simp at h2
          · exact FetchResult.noConfusion hl
        · have hc : countDelete
              (mainAfterSelect (SelectResult.waitDone (some e)) (FetchResult.ok logs) d) = 1 := by
            cases d <;> rfl
          exact ⟨Nat.le_of_eq hc, fun _ => hc⟩

/-- Claim C1 witness: on the stop-signal (cancellation) path the delete is
invoked exactly once. -/
theorem c1_witness :
    countDelete [Effect.logLine "exit requested.", Effect.logLine "cleaning up pod...",
        Effect.deletePod] = 1 :=
  (c1_cleanup_once "p" [] true (FetchResult.ok "logs") none
      [Effect.logLine "exit requested.", Effect.logLine "cleaning up pod...",
        Effect.deletePod] rfl).2 (Or.inl rfl)

/-- Claim C4 counterexample: the pod logs are fetched although the wait ended
with a polling error, not a job-failure outcome: main dumps logs on any
non-nil wait error. -/
theorem c4_counterexample :
    runMain "p" [PollEvent.tick (GetResult.error "connection refused")] false
        (FetchResult.ok "transcoder output") none
      = some [Effect.logLine "error waiting for pod to complete: connection refused",
              Effect.fetchLogs,
              Effect.logLine "pod logs:\ntranscoder output",
              Effect.logLine "cleaning up pod...",
              Effect.deletePod]
    ∧ countFetch [Effect.logLine "error waiting for pod to complete: connection refused",
              Effect.fetchLogs,
              Effect.logLine "pod logs:\ntranscoder output",
              Effect.logLine "cleaning up pod...",
              Effect.deletePod] = 1
    ∧ (waitForPodCompletion "p" [PollEvent.tick (GetResult.error "connection refused")]).2
        = some (some (WaitErr.getErr "connection refused"))
    ∧ WaitErr.getErr "connection refused" ≠ WaitErr.podFailed "p" := by
  refine ⟨rfl, rfl, rfl, by decide⟩

/-- Claim C4 (amended): the log stream is fetched if and only if the wait
channel delivered a non-nil error (job failure, polling error, or a
watcher-observed context cancellation) — never on the nil success outcome
and never on the stop-signal path — and in that case exactly one log-fetch
call is made; when the fetch and read succeed, the fully buffered content is
surfaced in the failure report. -/
theorem c4_fetch_iff (n : String) (evs : List PollEvent) (stopWins : Bool)
    (fetch : FetchResult) (d : Option String) (tr : List Effect)
    (h : runMain n evs stopWins fetch d = some tr) :
    (countFetch tr = 1 ↔
      (stopWins = false ∧ ∃ e, (waitForPodCompletion n evs).2 = some (some e)))
    ∧ countFetch tr ≤ 1
    ∧ (∀ e logs, stopWins = false →
        (waitForPodCompletion n evs).2 = some (some e) → fetch = FetchResult.ok logs →
        Effect.logLine ("pod logs:\n" ++ logs) ∈ tr) := by
  unfold runMain mainSelect at h
  cases stopWins with
  | true =>
    rw [if_pos rfl] at h
    simp only [Option.map_some', Option.some.injEq] at h
    subst h
    have hc : countFetch (mainAfterSelect SelectResult.stopSignal fetch d) = 0 := by
      cases d <;> rfl
    refine ⟨?_, by rw [hc]; exact Nat.zero_le _, ?_⟩
    · rw [hc]
      simp
    · intro e logs hsw
      exact absurd hsw (by simp)
  | false =>
    rw [if_neg (fun hh => Bool.noConfusion hh)] at h
    rcases hw : (waitForPodCompletion n evs).2 with - | r
    · rw [hw] at h
      simp at h
    · rw [hw] at h
      simp only [Option.map_some', Option.some.injEq] at h
      subst h
      rcases r with - | e
      · have hc : countFetch (mainAfterSelect (SelectResult.waitDone none) fetch d) = 0 := by
          cases d <;> rfl
        refine ⟨?_, by rw [hc]; exact Nat.zero_le _, ?_⟩
        · rw [hc]
          constructor
          · intro h0
            exact absurd h0 (by simp)
          · rintro ⟨-, e, he⟩
            simp at he
        · intro e logs _ he
          simp at he
      · have hc1 : countFetch (mainAfterSelect (SelectResult.waitDone (some e)) fetch d) = 1 := by
          rcases fetch with m | m | logs <;> cases d <;> rfl
        refine ⟨?_, Nat.le_of_eq hc1, ?_⟩
        · rw [hc1]
          exact ⟨fun _ => ⟨rfl, e, rfl⟩, fun _ => rfl⟩
        · rintro e1 logs - - hfe
          subst hfe
          exact List.mem_cons_of_mem _ (List.mem_cons_of_mem _ (List.mem_cons_self _ _))

/-- Claim C4 witness: a job-failure outcome with a successful fetch makes
exactly one log-fetch call and surfaces the buffered content. -/
theorem c4_witness :
    Effect.logLine ("pod logs:\n" ++ "captured output") ∈
      [Effect.logLine "error waiting for pod to complete: pod \"p\" failed",
       Effect.fetchLogs,
       Effect.logLine "pod logs:\ncaptured output",
       Effect.logLine "cleaning up pod...",
       Effect.deletePod] :=
  (c4_fetch_iff "p" [PollEvent.tick (GetResult.ok Phase.failed)] false
      (FetchResult.ok "captured output") none
      [Effect.logLine "error waiting for pod to complete: pod \"p\" failed",
       Effect.fetchLogs,
       Effect.logLine "pod logs:\ncaptured output",
       Effect.logLine "cleaning up pod...",
       Effect.deletePod] rfl).2.2
    (WaitErr.podFailed "p") "captured output" rfl rfl rfl

end KubePlex
